import Mathlib

/-!
Verification of the PDF2PNG batch converter core (logic.py, cli.py, gui.py).

The development shallow-embeds the two core routines of the repository:

* `find_pdfs` (logic.py lines 24-48): path discovery over an abstract
  filesystem `FS` supplying path resolution, file/directory tests and the
  recursive glob used by the source.
* `convert_pdf` (logic.py lines 54-147): single-file conversion over an
  abstract PDF library `PdfLib` (pymupdf) and an explicit filesystem state
  `FSState`.  External fallible calls (open, render/save) are modelled as
  Option-valued operations; the try/except structure of the source becomes
  total case analysis, and the emitted log lines are returned as a list.
* `processBatch` / `cliMain` (cli.py `_main`, lines 59-77): the sequential
  batch loop and the exit-code logic.

Path helpers model pathlib's `name`, `parent`, `stem`, `suffix` for the
normalized absolute path strings that the discovery step produces.
-/

namespace PDF2PNG

/-! ### Path helpers (pathlib model) -/

/-- Split a character list on a separator, mirroring how a path string is
split into components by the slashes. -/
def splitOnChar (sep : Char) : List Char → List (List Char)
  | [] => [[]]
  | c :: cs =>
      let r := splitOnChar sep cs
      if c = sep then [] :: r
      else
        match r with
        | [] => [[c]]
        | h :: t => (c :: h) :: t

/-- Join components with a separator character, inverse of `splitOnChar`. -/
def joinSep (sep : Char) : List (List Char) → List Char
  | [] => []
  | [x] => x
  | x :: xs => x ++ sep :: joinSep sep xs

/-- pathlib `Path.name`: final component of the path. -/
def pathName (p : String) : String :=
  String.mk ((splitOnChar '/' p.data).getLastD [])

/-- pathlib `Path.parent` rendered as a string: everything before the final
component. -/
def pathParent (p : String) : String :=
  String.mk (joinSep '/' ((splitOnChar '/' p.data).dropLast))

/-- Index of the last dot in a character list, if any. -/
def lastDotIdx : List Char → Option Nat
  | [] => none
  | c :: cs =>
      match lastDotIdx cs with
      | some i => some (i + 1)
      | none => if c = '.' then some 0 else none

/-- pathlib `Path.suffix`: the extension of the final component.  pathlib
returns the part of the name from the last dot `i` when `0 < i < len - 1`,
and the empty string otherwise. -/
def pathSuffix (p : String) : String :=
  let nm := (pathName p).data
  match lastDotIdx nm with
  | some i => if 0 < i ∧ i < nm.length - 1 then String.mk (nm.drop i) else ""
  | none => ""

/-- pathlib `Path.stem`: the final component without its suffix. -/
def pathStem (p : String) : String :=
  let nm := (pathName p).data
  match lastDotIdx nm with
  | some i => if 0 < i ∧ i < nm.length - 1 then String.mk (nm.take i) else pathName p
  | none => pathName p

/-- pathlib `/` path join: `parent / name`. -/
def pathJoin (d n : String) : String := d ++ "/" ++ n

/-- `str.lower()` on the ASCII range, character by character (the suffix
comparison in the source only ever distinguishes ASCII letters). -/
def lowerStr (s : String) : String := String.mk (s.data.map Char.toLower)

/-! ### Injectivity of `Nat.repr`

The multi-page naming scheme embeds a decimal page number into each output
file name, so distinctness of the per-page target paths reduces to
injectivity of `Nat.repr`.  We prove it by exhibiting the decimal parse as
a left inverse of `Nat.toDigitsCore`. -/

/-- Numeric value of a decimal digit character. -/
def charVal (c : Char) : Nat := c.toNat - 48

/-- Parse a most-significant-first digit list back into a number. -/
def parseDigits (cs : List Char) : Nat :=
  cs.foldl (fun a c => a * 10 + charVal c) 0

theorem charVal_digitChar (d : Nat) (h : d < 10) :
    charVal (Nat.digitChar d) = d := by
  interval_cases d <;> decide

theorem parseDigits_concat (l : List Char) (c : Char) :
    parseDigits (l ++ [c]) = parseDigits l * 10 + charVal c := by
  simp [parseDigits, List.foldl_append]

theorem toDigitsCore_acc (f : Nat) :
    ∀ (n : Nat) (ds : List Char),
      Nat.toDigitsCore 10 f n ds = Nat.toDigitsCore 10 f n [] ++ ds := by
  induction f with
  | zero => intro n ds; simp [Nat.toDigitsCore]
  | succ f ih =>
      intro n ds
      simp only [Nat.toDigitsCore]
      by_cases h : n / 10 = 0
      · simp [h]
      · simp only [h, if_false]
        rw [ih (n / 10) (Nat.digitChar (n % 10) :: ds),
            ih (n / 10) [Nat.digitChar (n % 10)]]
        simp

theorem parseDigits_toDigitsCore (f : Nat) :
    ∀ n : Nat, n < f → parseDigits (Nat.toDigitsCore 10 f n []) = n := by
  induction f with
  | zero => intro n h; omega
  | succ f ih =>
      intro n hn
      simp only [Nat.toDigitsCore]
      by_cases h : n / 10 = 0
      · have hlt : n < 10 := by omega
        simp [h, parseDigits, charVal_digitChar (n % 10) (Nat.mod_lt n (by omega))]
        omega
      · simp only [h, if_false]
        rw [toDigitsCore_acc f (n / 10) [Nat.digitChar (n % 10)]]
        rw [parseDigits_concat]
        have hdivlt : n / 10 < f := by
          have h1 : n / 10 < n := Nat.div_lt_self (by omega) (by omega)
          omega
        rw [ih (n / 10) hdivlt]
        rw [charVal_digitChar (n % 10) (Nat.mod_lt n (by omega))]
        omega

theorem parseDigits_reprData (n : Nat) : parseDigits ((Nat.repr n).data) = n := by
  show parseDigits ((Nat.toDigits 10 n).asString.data) = n
  have : (Nat.toDigits 10 n).asString.data = Nat.toDigits 10 n := rfl
  rw [this]
  exact parseDigits_toDigitsCore (n + 1) n (Nat.lt_succ_self n)

theorem natReprData_inj {m n : Nat} (h : (Nat.repr m).data = (Nat.repr n).data) :
    m = n := by
  have := congrArg parseDigits h
  rwa [parseDigits_reprData, parseDigits_reprData] at this

/-! ### Path discovery (logic.py `find_pdfs`, lines 24-48)

The filesystem the discovery walks is abstract: it supplies the resolution
of raw user input (`Path(raw).expanduser().resolve()`), the resolution of
glob results (`path.resolve()`), the `is_file` / `is_dir` tests, and the
ordered result of the recursive glob
`p.rglob("*.[Pp][Dd][Ff]")` on a directory. -/

structure FS where
  resolveInput : String → String
  resolve : String → String
  isFile : String → Bool
  isDir : String → Bool
  rglobPdf : String → List String

/-- The body of the two occurrences of
`if path not in seen: seen.add(path); out.append(path)` in the source,
operating on the accumulator `(seen, out)`. -/
def addPath (acc : List String × List String) (p : String) :
    List String × List String :=
  if p ∈ acc.1 then acc else (p :: acc.1, acc.2 ++ [p])

/-- One iteration of the `for raw in inputs` loop of `find_pdfs`:
the file branch (suffix test), the directory branch (resolve every rglob
result, then dedup-add), and the silent-ignore fallthrough. -/
def findStep (fs : FS) (acc : List String × List String) (raw : String) :
    List String × List String :=
  let p := fs.resolveInput raw
  if fs.isFile p ∧ lowerStr (pathSuffix p) = ".pdf" then addPath acc p
  else if fs.isDir p then ((fs.rglobPdf p).map fs.resolve).foldl addPath acc
  else acc

/-- logic.py `find_pdfs`: fold the per-input step starting from an empty
seen-set and an empty output list, returning the output list. -/
def find_pdfs (fs : FS) (inputs : List String) : List String :=
  (inputs.foldl (findStep fs) ([], [])).2

/-- The paths one raw input contributes, in encounter order, before any
deduplication (specification-side description of the walk). -/
def inputPaths (fs : FS) (raw : String) : List String :=
  let p := fs.resolveInput raw
  if fs.isFile p ∧ lowerStr (pathSuffix p) = ".pdf" then [p]
  else if fs.isDir p then (fs.rglobPdf p).map fs.resolve
  else []

/-- The full encounter sequence of the walk, duplicates included. -/
def encountered (fs : FS) (inputs : List String) : List String :=
  inputs.flatMap (inputPaths fs)

/-- Modelled from the spec wording: keep each path at its first encounter,
dropping later occurrences and anything already in `seen`. -/
def specDedupFirst (seen : List String) : List String → List String
  | [] => []
  | p :: ps =>
      if p ∈ seen then specDedupFirst seen ps
      else p :: specDedupFirst (p :: seen) ps

theorem foldl_addPath_snd (l : List String) :
    ∀ (seen out : List String),
      (l.foldl addPath (seen, out)).2 = out ++ specDedupFirst seen l := by
  induction l with
  | nil => intro seen out; simp [specDedupFirst]
  | cons p ps ih =>
      intro seen out
      by_cases h : p ∈ seen
      · simp only [List.foldl_cons, addPath, h, if_true, specDedupFirst]
        exact ih seen out
      · simp only [List.foldl_cons, addPath, h, if_false, specDedupFirst]
        rw [ih (p :: seen) (out ++ [p])]
        simp

theorem findStep_eq_foldl (fs : FS) (acc : List String × List String)
    (raw : String) :
    findStep fs acc raw = (inputPaths fs raw).foldl addPath acc := by
  simp only [findStep, inputPaths]
  by_cases h1 : fs.isFile (fs.resolveInput raw) ∧
      lowerStr (pathSuffix (fs.resolveInput raw)) = ".pdf"
  · simp [h1]
  · by_cases h2 : fs.isDir (fs.resolveInput raw) = true
    · simp [h1, h2]
    · simp [h1, h2]

theorem foldl_findStep_eq (fs : FS) (inputs : List String) :
    ∀ acc, inputs.foldl (findStep fs) acc =
      (encountered fs inputs).foldl addPath acc := by
  induction inputs with
  | nil => intro acc; simp [encountered]
  | cons raw rest ih =>
      intro acc
      simp only [List.foldl_cons, encountered, List.flatMap_cons,
        List.foldl_append]
      rw [findStep_eq_foldl]
      exact ih _

theorem find_pdfs_eq_specDedupFirst (fs : FS) (inputs : List String) :
    find_pdfs fs inputs = specDedupFirst [] (encountered fs inputs) := by
  show (inputs.foldl (findStep fs) ([], [])).2 = _
  rw [foldl_findStep_eq]
  rw [foldl_addPath_snd]
  simp

theorem specDedupFirst_not_mem_seen (l : List String) :
    ∀ (seen : List String) (x : String),
      x ∈ specDedupFirst seen l → x ∉ seen := by
  induction l with
  | nil => intro seen x hx; simp [specDedupFirst] at hx
  | cons p ps ih =>
      intro seen x hx
      by_cases h : p ∈ seen
      · simp only [specDedupFirst, h, if_true] at hx
        exact ih seen x hx
      · simp only [specDedupFirst, h, if_false, List.mem_cons] at hx
        rcases hx with rfl | hx
        · exact h
        · intro hxseen
          exact ih (p :: seen) x hx (List.mem_cons_of_mem p hxseen)

theorem specDedupFirst_nodup (l : List String) :
    ∀ seen : List String, (specDedupFirst seen l).Nodup := by
  induction l with
  | nil => intro seen; simp [specDedupFirst]
  | cons p ps ih =>
      intro seen
      by_cases h : p ∈ seen
      · simp only [specDedupFirst, h, if_true]
        exact ih seen
      · simp only [specDedupFirst, h, if_false, List.nodup_cons]
        refine ⟨fun hmem => ?_, ih (p :: seen)⟩
        exact specDedupFirst_not_mem_seen ps (p :: seen) p hmem
          (List.mem_cons_self p seen)

theorem specDedupFirst_sublist (l : List String) :
    ∀ seen : List String, (specDedupFirst seen l).Sublist l := by
  induction l with
  | nil => intro seen; simp [specDedupFirst]
  | cons p ps ih =>
      intro seen
      by_cases h : p ∈ seen
      · simp only [specDedupFirst, h, if_true]
        exact (ih seen).cons p
      · simp only [specDedupFirst, h, if_false]
        exact (ih (p :: seen)).cons₂ p

theorem specDedupFirst_mem (l : List String) :
    ∀ (seen : List String) (x : String),
      x ∈ specDedupFirst seen l ↔ x ∈ l ∧ x ∉ seen := by
  induction l with
  | nil => intro seen x; simp [specDedupFirst]
  | cons p ps ih =>
      intro seen x
      by_cases h : p ∈ seen
      · simp only [specDedupFirst, h, if_true, ih, List.mem_cons]
        constructor
        · rintro ⟨hx, hns⟩; exact ⟨Or.inr hx, hns⟩
        · rintro ⟨hx | hx, hns⟩
          · subst hx; exact absurd h hns
          · exact ⟨hx, hns⟩
      · simp only [specDedupFirst, h, if_false, List.mem_cons, ih]
        constructor
        · rintro (rfl | ⟨hx, hns⟩)
          · exact ⟨Or.inl rfl, h⟩
          · exact ⟨Or.inr hx, fun hxseen => hns (Or.inr hxseen)⟩
        · rintro ⟨hx | hx, hns⟩
          · exact Or.inl hx
          · by_cases hxp : x = p
            · exact Or.inl hxp
            · exact Or.inr ⟨hx, fun hc => hc.elim hxp hns⟩

/-! ### Conversion (logic.py `convert_pdf`, lines 54-147)

The pymupdf document is abstract: encryption flag, authentication oracle,
page count, and the combined `load_page` / `get_pixmap` / `save` pipeline
as an Option-valued render (none models the exception caught by the
per-page try/except; the saved PNG bytes are abstracted as a number).
The filesystem state records files with their contents and the set of
directories; `pix.save` is the only file write and `mkdir` the only
directory creation. Closing the document (the finally block) has no
observable effect in this model. -/

structure Doc where
  needs_pass : Bool
  authenticate : String → Bool
  page_count : Nat
  render : ℚ × ℚ → Bool → Nat → Option Nat

structure PdfLib where
  openDoc : String → Option Doc

structure FSState where
  files : List (String × Nat)
  dirs : List String
deriving DecidableEq

/-- First-match lookup of a file's contents. -/
def lookupFile : List (String × Nat) → String → Option Nat
  | [], _ => none
  | (q, b) :: rest, p => if q = p then some b else lookupFile rest p

def FSState.content (w : FSState) (p : String) : Option Nat :=
  lookupFile w.files p

/-- `Path.exists()` on a file path. -/
def FSState.fileExists (w : FSState) (p : String) : Bool :=
  (w.content p).isSome

/-- `pix.save(out_png)`: (over)write a file. -/
def FSState.write (w : FSState) (p : String) (b : Nat) : FSState :=
  { w with files := (p, b) :: w.files }

/-- `out_dir.mkdir(parents=True, exist_ok=True)`. -/
def FSState.mkdir (w : FSState) (p : String) : FSState :=
  { w with dirs := p :: w.dirs }

theorem content_write_self (w : FSState) (p : String) (b : Nat) :
    (w.write p b).content p = some b := by
  simp [FSState.write, FSState.content, lookupFile]

theorem content_write_other (w : FSState) (p : String) (b : Nat) (q : String)
    (h : q ≠ p) : (w.write p b).content q = w.content q := by
  have hpq : ¬p = q := fun hc => h hc.symm
  simp [FSState.write, FSState.content, lookupFile, hpq]

theorem content_none_of_fileExists_false (w : FSState) (p : String)
    (h : w.fileExists p = false) : w.content p = none := by
  rw [FSState.fileExists] at h
  exact Option.not_isSome_iff_eq_none.mp (by simp [h])

/-! Log lines, mirroring the f-strings of the source (the interpolated
exception text is not modellable and is omitted). -/

def msgOpenErr (nm : String) : String :=
  "[ERROR] Could not open " ++ nm

def msgAuthErr (nm : String) : String :=
  "[ERROR] Password required/failed for " ++ nm ++ ". Skipping."

def msgZeroPages (nm : String) : String :=
  "[WARN] " ++ nm ++ " has 0 pages. Skipping."

def msgSkip (out : String) : String :=
  "[SKIP] Exists (use --overwrite): " ++ out

def msgRenderWarn (nm : String) (pg : Nat) : String :=
  "[WARN] Failed to render/save " ++ nm ++ " Pg " ++ Nat.repr pg

def msgOkSingle (nm out : String) : String :=
  "[OK] " ++ nm ++ " -> " ++ out

def msgOkMulti (nm od : String) (pc : Nat) : String :=
  "[OK] " ++ nm ++ " -> " ++ od ++ "/(Pg 1.." ++ Nat.repr pc ++ ")"

/-- The encryption guard `not password or not doc.authenticate(password)`:
Python truthiness makes both a missing and an empty password fail without
consulting `authenticate`. -/
def passFails (doc : Doc) (password : Option String) : Bool :=
  match password with
  | none => true
  | some pw => if pw = "" then true else !doc.authenticate pw

/-- logic.py line 88: `scale = max(dpi, 1) / 72.0` (exact arithmetic). -/
def renderScale (dpi : Int) : ℚ := ((max dpi 1 : Int) : ℚ) / 72

/-- Per-page file name `f"{stem} - Pg {i+1}.png"` for 0-based page `i`. -/
def pageFileName (stem : String) (i : Nat) : String :=
  stem ++ " - Pg " ++ Nat.repr (i + 1) ++ ".png"

/-- Per-page target path `out_dir / f"{stem} - Pg {i+1}.png"`. -/
def pageTarget (od stem : String) (i : Nat) : String :=
  pathJoin od (pageFileName stem i)

/-- One iteration of the multi-page `for i in range(page_count)` loop. -/
def pageStep (doc : Doc) (zoom : ℚ × ℚ) (ow al : Bool) (nm stem od : String)
    (acc : List String × FSState) (i : Nat) : List String × FSState :=
  let out_png := pageTarget od stem i
  if acc.2.fileExists out_png && !ow then
    (acc.1 ++ [msgSkip out_png], acc.2)
  else
    match doc.render zoom al i with
    | none => (acc.1 ++ [msgRenderWarn nm (i + 1)], acc.2)
    | some b => (acc.1, acc.2.write out_png b)

/-- The body of `convert_pdf` after a successful `pymupdf.open` (the code
inside the try block, logic.py lines 73-141). -/
def convertBody (doc : Doc) (pdf_path : String) (dpi : Int)
    (ow al : Bool) (pw : Option String) (w : FSState) :
    List String × FSState :=
  if doc.needs_pass && passFails doc pw then
    ([msgAuthErr (pathName pdf_path)], w)
  else if doc.page_count = 0 then
    ([msgZeroPages (pathName pdf_path)], w)
  else
    let scale := renderScale dpi
    let zoom := (scale, scale)
    let stem := pathStem pdf_path
    let parent := pathParent pdf_path
    if doc.page_count = 1 then
      let out_png := pathJoin parent (stem ++ ".png")
      if w.fileExists out_png && !ow then
        ([msgSkip out_png], w)
      else
        match doc.render zoom al 0 with
        | none => ([msgRenderWarn (pathName pdf_path) 1], w)
        | some b =>
            ([msgOkSingle (pathName pdf_path) (stem ++ ".png")],
             w.write out_png b)
    else
      let od := pathJoin parent stem
      let w1 := w.mkdir od
      let r := (List.range doc.page_count).foldl
        (pageStep doc zoom ow al (pathName pdf_path) stem od) ([], w1)
      (r.1 ++ [msgOkMulti (pathName pdf_path) od doc.page_count], r.2)

/-- logic.py `convert_pdf`: open the document (an exception becomes an
error line and an early return), then run the body. -/
def convert_pdf (lib : PdfLib) (pdf_path : String) (dpi : Int)
    (ow al : Bool) (pw : Option String) (w : FSState) :
    List String × FSState :=
  match lib.openDoc pdf_path with
  | none => ([msgOpenErr (pathName pdf_path)], w)
  | some doc => convertBody doc pdf_path dpi ow al pw w

/-- cli.py lines 67-77: the sequential `for pdf in pdfs` loop, collecting
all printed lines and threading the filesystem state. -/
def processBatch (lib : PdfLib) (dpi : Int) (ow al : Bool)
    (pw : Option String) : List String → FSState → List String × FSState
  | [], w => ([], w)
  | p :: ps, w =>
      let r := convert_pdf lib p dpi ow al pw w
      let rest := processBatch lib dpi ow al pw ps r.2
      (r.1 ++ rest.1, rest.2)

structure CliResult where
  output : List String
  world : FSState
  exitCode : Nat

/-- cli.py `_main`, lines 59-77: discover, report-and-exit-1 on an empty
result, otherwise convert every file and exit 0. -/
def cliMain (lib : PdfLib) (fs : FS) (inputs : List String) (dpi : Int)
    (ow al : Bool) (pw : Option String) (w : FSState) : CliResult :=
  let pdfs := find_pdfs fs inputs
  if pdfs.isEmpty then
    { output := ["[INFO] No PDFs found."], world := w, exitCode := 1 }
  else
    let r := processBatch lib dpi ow al pw pdfs w
    { output := r.1, world := r.2, exitCode := 0 }

/-- gui.py line 349: `password = self.password_var.get().strip() or None`. -/
def guiPassword (s : String) : Option String :=
  if s.trim = "" then none else some s.trim

/-- Single-page target path `parent / f"{stem}.png"`. -/
def singleTarget (p : String) : String :=
  pathJoin (pathParent p) (pathStem p ++ ".png")

/-- Multi-page output directory `parent / stem`. -/
def multiOutDir (p : String) : String :=
  pathJoin (pathParent p) (pathStem p)

/-- Multi-page target path for 0-based page `i`. -/
def multiTarget (p : String) (i : Nat) : String :=
  pageTarget (multiOutDir p) (pathStem p) i

/-! ### Distinctness of per-page targets and the page-loop lemmas -/

theorem pageTarget_inj (od stem : String) {i j : Nat}
    (h : pageTarget od stem i = pageTarget od stem j) : i = j := by
  have hd := congrArg String.data h
  simp only [pageTarget, pathJoin, pageFileName, String.data_append,
    List.append_assoc] at hd
  have h1 := List.append_cancel_left hd
  have h2 := List.append_cancel_left h1
  have h3 := List.append_cancel_left h2
  have h4 := List.append_cancel_left h3
  have h5 := List.append_cancel_right h4
  have h6 := natReprData_inj h5
  omega

theorem fileExists_write_other (w : FSState) (p : String) (b : Nat)
    (q : String) (h : q ≠ p) :
    (w.write p b).fileExists q = w.fileExists q := by
  simp [FSState.fileExists, content_write_other w p b q h]

/-- Master lemma for the multi-page loop on fresh targets: every page ends
with its own render result as content, paths off the targets are untouched,
and the loop never creates directories. -/
theorem pagesLoop_fresh (doc : Doc) (zoom : ℚ × ℚ) (ow al : Bool)
    (nm stem od : String) (l : List Nat) :
    ∀ (logs : List String) (w : FSState), l.Nodup →
      (∀ i ∈ l, w.fileExists (pageTarget od stem i) = false) →
      (∀ i ∈ l,
        (l.foldl (pageStep doc zoom ow al nm stem od) (logs, w)).2.content
          (pageTarget od stem i) = doc.render zoom al i)
      ∧ (∀ q, (∀ i ∈ l, q ≠ pageTarget od stem i) →
        (l.foldl (pageStep doc zoom ow al nm stem od) (logs, w)).2.content q
          = w.content q)
      ∧ (l.foldl (pageStep doc zoom ow al nm stem od) (logs, w)).2.dirs
          = w.dirs := by
  induction l with
  | nil =>
      intro logs w _ _
      exact ⟨by simp, fun q _ => rfl, rfl⟩
  | cons i is ih =>
      intro logs w hnd hfresh
      have hfi : w.fileExists (pageTarget od stem i) = false :=
        hfresh i (List.mem_cons_self i is)
      have hinotin : i ∉ is := (List.nodup_cons.mp hnd).1
      have hndtail : is.Nodup := (List.nodup_cons.mp hnd).2
      have htne : ∀ j ∈ is, pageTarget od stem j ≠ pageTarget od stem i := by
        intro j hj heq
        have hji : j = i := pageTarget_inj od stem heq
        subst hji
        exact hinotin hj
      cases hr : doc.render zoom al i with
      | none =>
          have hstep :
              (i :: is).foldl (pageStep doc zoom ow al nm stem od) (logs, w)
                = is.foldl (pageStep doc zoom ow al nm stem od)
                    (logs ++ [msgRenderWarn nm (i + 1)], w) := by
            simp [List.foldl_cons, pageStep, hfi, hr]
          obtain ⟨ihc, ihf, ihd⟩ :=
            ih (logs ++ [msgRenderWarn nm (i + 1)]) w hndtail
              (fun j hj => hfresh j (List.mem_cons_of_mem i hj))
          refine ⟨?_, ?_, ?_⟩
          · intro k hk
            rcases List.mem_cons.mp hk with rfl | hk2
            · rw [hstep, ihf _ (fun j hj => (htne j hj).symm),
                content_none_of_fileExists_false w _ hfi, hr]
            · rw [hstep]
              exact ihc k hk2
          · intro q hq
            rw [hstep]
            exact ihf q (fun j hj => hq j (List.mem_cons_of_mem i hj))
          · rw [hstep]
            exact ihd
      | some b =>
          have hstep :
              (i :: is).foldl (pageStep doc zoom ow al nm stem od) (logs, w)
                = is.foldl (pageStep doc zoom ow al nm stem od)
                    (logs, w.write (pageTarget od stem i) b) := by
            simp [List.foldl_cons, pageStep, hfi, hr]
          have hfresh2 : ∀ j ∈ is,
              (w.write (pageTarget od stem i) b).fileExists
                (pageTarget od stem j) = false := by
            intro j hj
            rw [fileExists_write_other _ _ _ _ (htne j hj)]
            exact hfresh j (List.mem_cons_of_mem i hj)
          obtain ⟨ihc, ihf, ihd⟩ :=
            ih logs (w.write (pageTarget od stem i) b) hndtail hfresh2
          refine ⟨?_, ?_, ?_⟩
          · intro k hk
            rcases List.mem_cons.mp hk with rfl | hk2
            · rw [hstep, ihf _ (fun j hj => (htne j hj).symm),
                content_write_self, hr]
            · rw [hstep]
              exact ihc k hk2
          · intro q hq
            rw [hstep, ihf q (fun j hj => hq j (List.mem_cons_of_mem i hj)),
              content_write_other _ _ _ _ (hq i (List.mem_cons_self i is))]
          · rw [hstep, ihd]
            rfl

/-- When every page render fails, the loop leaves the filesystem state
exactly as it was. -/
theorem pagesLoop_allFail (doc : Doc) (zoom : ℚ × ℚ) (ow al : Bool)
    (nm stem od : String) (l : List Nat) :
    ∀ (logs : List String) (w : FSState),
      (∀ i ∈ l, doc.render zoom al i = none) →
      (l.foldl (pageStep doc zoom ow al nm stem od) (logs, w)).2 = w := by
  induction l with
  | nil => intro logs w _; rfl
  | cons i is ih =>
      intro logs w hfail
      have hr : doc.render zoom al i = none :=
        hfail i (List.mem_cons_self i is)
      have htail : ∀ j ∈ is, doc.render zoom al j = none :=
        fun j hj => hfail j (List.mem_cons_of_mem i hj)
      by_cases hex :
          (w.fileExists (pageTarget od stem i) && !ow) = true
      · have hstep :
            (i :: is).foldl (pageStep doc zoom ow al nm stem od) (logs, w)
              = is.foldl (pageStep doc zoom ow al nm stem od)
                  (logs ++ [msgSkip (pageTarget od stem i)], w) := by
          simp [List.foldl_cons, pageStep, hex]
        rw [hstep]
        exact ih _ w htail
      · rw [Bool.not_eq_true] at hex
        have hstep :
            (i :: is).foldl (pageStep doc zoom ow al nm stem od) (logs, w)
              = is.foldl (pageStep doc zoom ow al nm stem od)
                  (logs ++ [msgRenderWarn nm (i + 1)], w) := by
          simp [List.foldl_cons, pageStep, hex, hr]
        rw [hstep]
        exact ih _ w htail

/-! ### Shape lemmas for `convert_pdf` -/

theorem convert_pdf_open_some (lib : PdfLib) (p : String) (dpi : Int)
    (ow al : Bool) (pw : Option String) (w : FSState) (doc : Doc)
    (h : lib.openDoc p = some doc) :
    convert_pdf lib p dpi ow al pw w = convertBody doc p dpi ow al pw w := by
  unfold convert_pdf
  rw [h]

theorem convertBody_multi (doc : Doc) (p : String) (dpi : Int) (ow al : Bool)
    (pw : Option String) (w : FSState)
    (hauth : (doc.needs_pass && passFails doc pw) = false)
    (hpc : 2 ≤ doc.page_count) :
    convertBody doc p dpi ow al pw w =
      (((List.range doc.page_count).foldl
          (pageStep doc (renderScale dpi, renderScale dpi) ow al
            (pathName p) (pathStem p) (multiOutDir p))
          ([], w.mkdir (multiOutDir p))).1
        ++ [msgOkMulti (pathName p) (multiOutDir p) doc.page_count],
       ((List.range doc.page_count).foldl
          (pageStep doc (renderScale dpi, renderScale dpi) ow al
            (pathName p) (pathStem p) (multiOutDir p))
          ([], w.mkdir (multiOutDir p))).2) := by
  unfold convertBody
  simp only [hauth, Bool.false_eq_true, if_false]
  rw [if_neg (by omega), if_neg (by omega)]
  rfl

theorem convertBody_single (doc : Doc) (p : String) (dpi : Int) (ow al : Bool)
    (pw : Option String) (w : FSState)
    (hauth : (doc.needs_pass && passFails doc pw) = false)
    (hpc : doc.page_count = 1) :
    convertBody doc p dpi ow al pw w =
      (if w.fileExists (singleTarget p) && !ow then
        ([msgSkip (singleTarget p)], w)
      else
        match doc.render (renderScale dpi, renderScale dpi) al 0 with
        | none => ([msgRenderWarn (pathName p) 1], w)
        | some b =>
            ([msgOkSingle (pathName p) (pathStem p ++ ".png")],
             w.write (singleTarget p) b)) := by
  unfold convertBody
  simp only [hauth, Bool.false_eq_true, if_false]
  rw [if_neg (by omega), if_pos hpc]
  rfl

theorem content_mkdir (w : FSState) (d q : String) :
    (w.mkdir d).content q = w.content q := rfl

theorem fileExists_mkdir (w : FSState) (d q : String) :
    (w.mkdir d).fileExists q = w.fileExists q := rfl

theorem dirs_mkdir (w : FSState) (d : String) :
    (w.mkdir d).dirs = d :: w.dirs := rfl

/-! ### Concrete fixtures used by the witnesses -/

/-- Empty filesystem state. -/
def w0 : FSState := { files := [], dirs := [] }

/-- Filesystem state already holding the single-page output `/d/a.png`. -/
def wSkip : FSState := { files := [("/d/a.png", 7)], dirs := [] }

/-- Unencrypted 3-page document whose pages all render. -/
def doc3 : Doc where
  needs_pass := false
  authenticate := fun _ => false
  page_count := 3
  render := fun _ _ i => some (100 + i)

def lib3 : PdfLib := { openDoc := fun _ => some doc3 }

/-- Unencrypted 3-page document whose middle page (0-based page 1) fails to
render; the other pages render. -/
def doc3f : Doc where
  needs_pass := false
  authenticate := fun _ => false
  page_count := 3
  render := fun _ _ i => if i = 1 then none else some (100 + i)

def lib3f : PdfLib := { openDoc := fun _ => some doc3f }

/-- Unencrypted 3-page document on which every render fails. -/
def docFail : Doc where
  needs_pass := false
  authenticate := fun _ => false
  page_count := 3
  render := fun _ _ _ => none

def libFail : PdfLib := { openDoc := fun _ => some docFail }

/-- Unencrypted single-page document that renders to bytes 42. -/
def doc1 : Doc where
  needs_pass := false
  authenticate := fun _ => false
  page_count := 1
  render := fun _ _ _ => some 42

def lib1 : PdfLib := { openDoc := fun _ => some doc1 }

/-- Encrypted single-page document accepting only the password "secret". -/
def docEnc : Doc where
  needs_pass := true
  authenticate := fun pw => pw = "secret"
  page_count := 1
  render := fun _ _ _ => some 42

def libEnc : PdfLib := { openDoc := fun _ => some docEnc }

/-- Filesystem in which only the regular file `/d/a.pdf` exists. -/
def fsOneFile : FS where
  resolveInput := id
  resolve := id
  isFile := fun s => s = "/d/a.pdf"
  isDir := fun _ => false
  rglobPdf := fun _ => []

/-! ### The claims -/

/-- C2: for every input list, `find_pdfs` returns a list with no duplicate
paths, in first-encountered order: it equals the first-encounter
deduplication of the full encounter sequence of the walk, is duplicate
free, is an order-preserving subsequence of the encounter sequence, and
contains exactly the encountered paths. -/
theorem find_pdfs_dedup_first_order (fs : FS) (inputs : List String) :
    find_pdfs fs inputs = specDedupFirst [] (encountered fs inputs)
    ∧ (find_pdfs fs inputs).Nodup
    ∧ (find_pdfs fs inputs).Sublist (encountered fs inputs)
    ∧ (∀ x, x ∈ find_pdfs fs inputs ↔ x ∈ encountered fs inputs) := by
  refine ⟨find_pdfs_eq_specDedupFirst fs inputs, ?_, ?_, ?_⟩
  · rw [find_pdfs_eq_specDedupFirst]
    exact specDedupFirst_nodup _ []
  · rw [find_pdfs_eq_specDedupFirst]
    exact specDedupFirst_sublist _ []
  · intro x
    rw [find_pdfs_eq_specDedupFirst]
    simp [specDedupFirst_mem]

/-- C6: the command-line entry point exits 0 whenever discovery finds at
least one PDF, no matter what the conversions do, and exits 1 with the
informational line exactly when discovery returns nothing. -/
theorem cliMain_exit_code (lib : PdfLib) (fs : FS) (inputs : List String)
    (dpi : Int) (ow al : Bool) (pw : Option String) (w : FSState) :
    (find_pdfs fs inputs = [] →
      cliMain lib fs inputs dpi ow al pw w =
        { output := ["[INFO] No PDFs found."], world := w, exitCode := 1 })
    ∧ (find_pdfs fs inputs ≠ [] →
        (cliMain lib fs inputs dpi ow al pw w).exitCode = 0)
    ∧ ((cliMain lib fs inputs dpi ow al pw w).exitCode = 1 ↔
        find_pdfs fs inputs = []) := by
  by_cases h : find_pdfs fs inputs = []
  · refine ⟨fun _ => ?_, fun hne => absurd h hne, ?_⟩
    · unfold cliMain
      rw [h]
      rfl
    · unfold cliMain
      rw [h]
      simp
  · have hne : (find_pdfs fs inputs).isEmpty = false := by
      simpa [List.isEmpty_iff] using h
    refine ⟨fun hc => absurd hc h, fun _ => ?_, ?_⟩
    · simp [cliMain, hne]
    · simp [cliMain, hne, h]

/-- C7: the render scale is `max(dpi, 1) / 72` — requested DPI over 72 with
a floor of 1 — and the matrix passed to the renderer carries that scale on
both axes (witnessed by the bytes actually written on the single-page
success path). -/
theorem renderScale_matrix :
    (∀ dpi : Int, renderScale dpi = ((max dpi 1 : Int) : ℚ) / 72)
    ∧ (∀ dpi : Int, 1 ≤ dpi → renderScale dpi = (dpi : ℚ) / 72)
    ∧ (∀ dpi : Int, dpi ≤ 1 → renderScale dpi = 1 / 72)
    ∧ (∀ (lib : PdfLib) (doc : Doc) (p : String) (dpi : Int) (al : Bool)
        (pw : Option String) (w : FSState) (b : Nat),
        lib.openDoc p = some doc →
        (doc.needs_pass && passFails doc pw) = false →
        doc.page_count = 1 →
        w.fileExists (singleTarget p) = false →
        doc.render (renderScale dpi, renderScale dpi) al 0 = some b →
        (convert_pdf lib p dpi false al pw w).2.content (singleTarget p)
          = some b) := by
  refine ⟨fun dpi => rfl, fun dpi h => ?_, fun dpi h => ?_, ?_⟩
  · rw [renderScale, max_eq_left h]
  · rw [renderScale, max_eq_right h]
    norm_num
  · intro lib doc p dpi al pw w b hopen hauth hpc hfe hb
    rw [convert_pdf_open_some lib p dpi false al pw w doc hopen,
      convertBody_single doc p dpi false al pw w hauth hpc]
    rw [if_neg (by simp [hfe]), hb]
    exact content_write_self w (singleTarget p) b

/-- C8: for a single raw input, `find_pdfs` includes an existing regular
file exactly when its suffix lowercases to ".pdf", silently ignores
non-existent paths and non-PDF files, and the suffix test is
case-insensitive on the spec's examples. -/
theorem find_pdfs_extension_filter (fs : FS) (raw : String) :
    (fs.isFile (fs.resolveInput raw) = true →
      (lowerStr (pathSuffix (fs.resolveInput raw)) = ".pdf" →
        find_pdfs fs [raw] = [fs.resolveInput raw])
      ∧ (lowerStr (pathSuffix (fs.resolveInput raw)) ≠ ".pdf" →
          fs.isDir (fs.resolveInput raw) = false →
          find_pdfs fs [raw] = []))
    ∧ (fs.isFile (fs.resolveInput raw) = false →
        fs.isDir (fs.resolveInput raw) = false →
        find_pdfs fs [raw] = [])
    ∧ (lowerStr (pathSuffix "/in/Report.PDF") = ".pdf"
        ∧ lowerStr (pathSuffix "/in/report.pdf") = ".pdf"
        ∧ lowerStr (pathSuffix "/in/REPORT.Pdf") = ".pdf"
        ∧ lowerStr (pathSuffix "/in/report.txt") ≠ ".pdf") := by
  refine ⟨fun hf => ⟨fun hsuf => ?_, fun hnsuf hnd => ?_⟩,
    fun hnf hnd => ?_, by decide⟩
  · simp [find_pdfs, findStep, hf, hsuf, addPath]
  · simp [find_pdfs, findStep, hf, hnsuf, hnd]
  · simp [find_pdfs, findStep, hnf, hnd]

/-- C8 witness: concrete discovery runs through the filter theorem. -/
theorem find_pdfs_extension_filter_witness :
    find_pdfs fsOneFile ["/d/a.pdf"] = ["/d/a.pdf"]
    ∧ find_pdfs fsOneFile ["/d/nope.txt"] = [] := by
  constructor
  · exact ((find_pdfs_extension_filter fsOneFile "/d/a.pdf").1
      (by decide)).1 (by decide)
  · exact (find_pdfs_extension_filter fsOneFile "/d/nope.txt").2.1
      (by decide) (by decide)

/-- C9: an empty-string password behaves exactly like no password: the
conversion result is identical, the encryption guard fails without
consulting the authentication oracle, an encrypted document is reported
and skipped, and the desktop interface never passes an empty password. -/
theorem empty_password_equals_none :
    (∀ (lib : PdfLib) (p : String) (dpi : Int) (ow al : Bool) (w : FSState),
      convert_pdf lib p dpi ow al (some "") w =
        convert_pdf lib p dpi ow al none w)
    ∧ (∀ doc : Doc, passFails doc (some "") = true)
    ∧ (∀ (lib : PdfLib) (doc : Doc) (p : String) (dpi : Int) (ow al : Bool)
        (w : FSState), lib.openDoc p = some doc → doc.needs_pass = true →
        convert_pdf lib p dpi ow al (some "") w =
          ([msgAuthErr (pathName p)], w))
    ∧ (∀ s : String, guiPassword s ≠ some "") := by
  refine ⟨?_, fun doc => rfl, ?_, ?_⟩
  · intro lib p dpi ow al w
    cases h : lib.openDoc p with
    | none => simp [convert_pdf, h]
    | some doc => simp [convert_pdf, h, convertBody, passFails]
  · intro lib doc p dpi ow al w hopen henc
    rw [convert_pdf_open_some lib p dpi ow al (some "") w doc hopen]
    unfold convertBody
    rw [henc]
    simp [passFails]
  · intro s h
    unfold guiPassword at h
    by_cases ht : s.trim = ""
    · simp [ht] at h
    · rw [if_neg ht] at h
      exact ht (Option.some_injective String h)

/-- C9 witness: the encrypted fixture with an empty password. -/
theorem empty_password_equals_none_witness :
    convert_pdf libEnc "/d/a.pdf" 600 false false (some "") w0
      = ([msgAuthErr (pathName "/d/a.pdf")], w0) :=
  empty_password_equals_none.2.2.1 libEnc docEnc "/d/a.pdf" 600 false false
    w0 rfl rfl

/-- C6 witness: concrete runs through the exit-code theorem. -/
theorem cliMain_exit_code_witness :
    cliMain lib1 fsOneFile ["/nope.txt"] 600 false false none w0 =
      { output := ["[INFO] No PDFs found."], world := w0, exitCode := 1 }
    ∧ (cliMain lib1 fsOneFile ["/d/a.pdf"] 600 false false none w0).exitCode
        = 0 := by
  constructor
  · exact (cliMain_exit_code lib1 fsOneFile ["/nope.txt"] 600 false false
      none w0).1 (by decide)
  · exact (cliMain_exit_code lib1 fsOneFile ["/d/a.pdf"] 600 false false
      none w0).2.1 (by decide)

/-- C7 witness: concrete scales and a concrete single-page run through the
scale theorem. -/
theorem renderScale_matrix_witness :
    renderScale 600 = (600 : ℚ) / 72
    ∧ renderScale 0 = 1 / 72
    ∧ (convert_pdf lib1 "/d/a.pdf" 600 false false none w0).2.content
        (singleTarget "/d/a.pdf") = some 42 := by
  refine ⟨renderScale_matrix.2.1 600 (by decide),
    renderScale_matrix.2.2.1 0 (by decide), ?_⟩
  exact renderScale_matrix.2.2.2 lib1 doc1 "/d/a.pdf" 600 false none w0 42
    rfl rfl rfl rfl rfl

/-- C1: errors stay local.  First, the batch loop always continues with the
remaining files after any outcome of the current file (file N cannot abort
file N+1, and `convert_pdf` returns normally on every environment).
Second, in a multi-page document a render failure on page M leaves every
other page with exactly the content its own render produces. -/
theorem convert_pdf_isolates_failures :
    (∀ (lib : PdfLib) (dpi : Int) (ow al : Bool) (pw : Option String)
        (p : String) (ps : List String) (w : FSState),
      processBatch lib dpi ow al pw (p :: ps) w =
        ((convert_pdf lib p dpi ow al pw w).1 ++
          (processBatch lib dpi ow al pw ps
            (convert_pdf lib p dpi ow al pw w).2).1,
         (processBatch lib dpi ow al pw ps
            (convert_pdf lib p dpi ow al pw w).2).2))
    ∧ (∀ (lib : PdfLib) (doc : Doc) (p : String) (dpi : Int) (ow al : Bool)
        (pw : Option String) (w : FSState) (M : Nat),
      lib.openDoc p = some doc →
      (doc.needs_pass && passFails doc pw) = false →
      2 ≤ doc.page_count →
      (∀ i, i < doc.page_count → w.fileExists (multiTarget p i) = false) →
      doc.render (renderScale dpi, renderScale dpi) al M = none →
      ∀ j, j < doc.page_count → j ≠ M →
        (convert_pdf lib p dpi ow al pw w).2.content (multiTarget p j) =
          doc.render (renderScale dpi, renderScale dpi) al j) := by
  constructor
  · intro lib dpi ow al pw p ps w
    rfl
  · intro lib doc p dpi ow al pw w M hopen hauth hpc hfresh hM j hj hne
    rw [convert_pdf_open_some lib p dpi ow al pw w doc hopen,
      convertBody_multi doc p dpi ow al pw w hauth hpc]
    have hmaster := pagesLoop_fresh doc (renderScale dpi, renderScale dpi)
      ow al (pathName p) (pathStem p) (multiOutDir p)
      (List.range doc.page_count) [] (w.mkdir (multiOutDir p))
      (List.nodup_range doc.page_count)
      (fun i hi => by
        rw [fileExists_mkdir]
        exact hfresh i (List.mem_range.mp hi))
    exact hmaster.1 j (List.mem_range.mpr hj)

/-- C1 witness: with the middle page failing, page 3 is still produced. -/
theorem convert_pdf_isolates_failures_witness :
    (convert_pdf lib3f "/d/a.pdf" 600 false false none w0).2.content
      (multiTarget "/d/a.pdf" 2) = some 102 := by
  have h := convert_pdf_isolates_failures.2 lib3f doc3f "/d/a.pdf" 600 false
    false none w0 1 rfl rfl (by decide) (fun i _ => rfl) rfl 2 (by decide)
    (by decide)
  rw [h]
  rfl

/-- C3: on a single-page document whose target PNG exists, `convert_pdf`
without overwrite reports a skip and returns the state untouched (same
bytes, no new directories, no other writes); with overwrite it replaces
the file with the freshly rendered bytes. -/
theorem convert_pdf_single_skip_and_overwrite
    (lib : PdfLib) (doc : Doc) (p : String) (dpi : Int) (al : Bool)
    (pw : Option String) (w : FSState)
    (hopen : lib.openDoc p = some doc)
    (hauth : (doc.needs_pass && passFails doc pw) = false)
    (hpc : doc.page_count = 1)
    (hex : w.fileExists (singleTarget p) = true) :
    convert_pdf lib p dpi false al pw w = ([msgSkip (singleTarget p)], w)
    ∧ (∀ b, doc.render (renderScale dpi, renderScale dpi) al 0 = some b →
        (convert_pdf lib p dpi true al pw w).2.content (singleTarget p)
          = some b) := by
  constructor
  · rw [convert_pdf_open_some lib p dpi false al pw w doc hopen,
      convertBody_single doc p dpi false al pw w hauth hpc]
    rw [if_pos (by simp [hex])]
  · intro b hb
    rw [convert_pdf_open_some lib p dpi true al pw w doc hopen,
      convertBody_single doc p dpi true al pw w hauth hpc]
    rw [if_neg (by simp), hb]
    exact content_write_self w (singleTarget p) b

/-- C3 witness: the single-page fixture against a state already holding
the output. -/
theorem convert_pdf_single_skip_and_overwrite_witness :
    convert_pdf lib1 "/d/a.pdf" 600 false false none wSkip
      = ([msgSkip (singleTarget "/d/a.pdf")], wSkip)
    ∧ (convert_pdf lib1 "/d/a.pdf" 600 true false none wSkip).2.content
        (singleTarget "/d/a.pdf") = some 42 := by
  have h := convert_pdf_single_skip_and_overwrite lib1 doc1 "/d/a.pdf" 600
    false none wSkip rfl rfl rfl (by decide)
  exact ⟨h.1, h.2 42 rfl⟩

/-- C4: an encrypted document with no password, or with a password that
fails authentication, yields exactly the authentication error line and an
untouched filesystem, and the batch continues with the remaining files on
the unchanged state. -/
theorem convert_pdf_encrypted_skips
    (lib : PdfLib) (doc : Doc) (p : String) (dpi : Int) (ow al : Bool)
    (pw : Option String) (w : FSState) (ps : List String)
    (hopen : lib.openDoc p = some doc)
    (henc : doc.needs_pass = true)
    (hfail : pw = none ∨ ∃ s, pw = some s ∧ doc.authenticate s = false) :
    convert_pdf lib p dpi ow al pw w = ([msgAuthErr (pathName p)], w)
    ∧ processBatch lib dpi ow al pw (p :: ps) w =
        (msgAuthErr (pathName p) :: (processBatch lib dpi ow al pw ps w).1,
         (processBatch lib dpi ow al pw ps w).2) := by
  have hpf : passFails doc pw = true := by
    rcases hfail with rfl | ⟨s, rfl, hs⟩
    · rfl
    · by_cases hse : s = ""
      · simp [passFails, hse]
      · simp [passFails, hse, hs]
  have h1 : convert_pdf lib p dpi ow al pw w
      = ([msgAuthErr (pathName p)], w) := by
    rw [convert_pdf_open_some lib p dpi ow al pw w doc hopen]
    unfold convertBody
    rw [henc, hpf]
    simp
  refine ⟨h1, ?_⟩
  simp [processBatch, h1]

/-- C4 witness: the encrypted fixture with no password. -/
theorem convert_pdf_encrypted_skips_witness :
    convert_pdf libEnc "/d/a.pdf" 600 false false none w0
      = ([msgAuthErr (pathName "/d/a.pdf")], w0) :=
  (convert_pdf_encrypted_skips libEnc docEnc "/d/a.pdf" 600 false false none
    w0 [] rfl rfl (Or.inl rfl)).1

/-- C5: a document with more than one page creates the sibling directory
named after the stem, fills it with the per-page files
`stem - Pg N.png` for N = 1..page_count (each holding its own page's
rendered bytes), and touches nothing else. -/
theorem convert_pdf_multipage_layout
    (lib : PdfLib) (doc : Doc) (p : String) (dpi : Int) (ow al : Bool)
    (pw : Option String) (w : FSState)
    (hopen : lib.openDoc p = some doc)
    (hauth : (doc.needs_pass && passFails doc pw) = false)
    (hpc : 2 ≤ doc.page_count)
    (hfresh : ∀ i, i < doc.page_count →
      w.fileExists (multiTarget p i) = false)
    (hsucc : ∀ i, i < doc.page_count →
      (doc.render (renderScale dpi, renderScale dpi) al i).isSome = true) :
    (convert_pdf lib p dpi ow al pw w).2.dirs = multiOutDir p :: w.dirs
    ∧ (∀ i, i < doc.page_count →
        (convert_pdf lib p dpi ow al pw w).2.fileExists (multiTarget p i)
          = true)
    ∧ (∀ i, i < doc.page_count →
        (convert_pdf lib p dpi ow al pw w).2.content (multiTarget p i) =
          doc.render (renderScale dpi, renderScale dpi) al i)
    ∧ (∀ q, (∀ i, i < doc.page_count → q ≠ multiTarget p i) →
        (convert_pdf lib p dpi ow al pw w).2.content q = w.content q) := by
  have hsnd : (convert_pdf lib p dpi ow al pw w).2 =
      ((List.range doc.page_count).foldl
        (pageStep doc (renderScale dpi, renderScale dpi) ow al
          (pathName p) (pathStem p) (multiOutDir p))
        ([], w.mkdir (multiOutDir p))).2 := by
    rw [convert_pdf_open_some lib p dpi ow al pw w doc hopen,
      convertBody_multi doc p dpi ow al pw w hauth hpc]
  have hmaster := pagesLoop_fresh doc (renderScale dpi, renderScale dpi)
    ow al (pathName p) (pathStem p) (multiOutDir p)
    (List.range doc.page_count) [] (w.mkdir (multiOutDir p))
    (List.nodup_range doc.page_count)
    (fun i hi => by
      rw [fileExists_mkdir]
      exact hfresh i (List.mem_range.mp hi))
  refine ⟨?_, ?_, ?_, ?_⟩
  · rw [hsnd, hmaster.2.2, dirs_mkdir]
  · intro i hi
    rw [FSState.fileExists, hsnd]
    simp only [multiTarget]
    rw [hmaster.1 i (List.mem_range.mpr hi)]
    exact hsucc i hi
  · intro i hi
    rw [hsnd]
    exact hmaster.1 i (List.mem_range.mpr hi)
  · intro q hq
    rw [hsnd, hmaster.2.1 q (fun i hi => hq i (List.mem_range.mp hi)),
      content_mkdir]

/-- C5 witness: the 3-page fixture produces the directory and the three
page files. -/
theorem convert_pdf_multipage_layout_witness :
    (convert_pdf lib3 "/d/a.pdf" 600 false false none w0).2.dirs
      = [multiOutDir "/d/a.pdf"]
    ∧ (convert_pdf lib3 "/d/a.pdf" 600 false false none w0).2.content
        (multiTarget "/d/a.pdf" 0) = some 100
    ∧ (convert_pdf lib3 "/d/a.pdf" 600 false false none w0).2.content
        (multiTarget "/d/a.pdf" 1) = some 101
    ∧ (convert_pdf lib3 "/d/a.pdf" 600 false false none w0).2.content
        (multiTarget "/d/a.pdf" 2) = some 102 := by
  have h := convert_pdf_multipage_layout lib3 doc3 "/d/a.pdf" 600 false
    false none w0 rfl rfl (by decide) (fun i _ => rfl) (fun i _ => rfl)
  exact ⟨h.1, h.2.2.1 0 (by decide), h.2.2.1 1 (by decide),
    h.2.2.1 2 (by decide)⟩

/-- C10: for a document with more than one page the final per-file [OK]
summary line is always the last log line, whatever the pages did; in
particular when every page render fails the [OK] line is still present
while no file at all was written. -/
theorem multipage_ok_line_unconditional
    (lib : PdfLib) (doc : Doc) (p : String) (dpi : Int) (ow al : Bool)
    (pw : Option String) (w : FSState)
    (hopen : lib.openDoc p = some doc)
    (hauth : (doc.needs_pass && passFails doc pw) = false)
    (hpc : 2 ≤ doc.page_count) :
    (convert_pdf lib p dpi ow al pw w).1.getLast? =
      some (msgOkMulti (pathName p) (multiOutDir p) doc.page_count)
    ∧ ((∀ i, i < doc.page_count →
          doc.render (renderScale dpi, renderScale dpi) al i = none) →
        (convert_pdf lib p dpi ow al pw w).2.files = w.files
        ∧ msgOkMulti (pathName p) (multiOutDir p) doc.page_count
            ∈ (convert_pdf lib p dpi ow al pw w).1) := by
  rw [convert_pdf_open_some lib p dpi ow al pw w doc hopen,
    convertBody_multi doc p dpi ow al pw w hauth hpc]
  refine ⟨?_, fun hfail => ⟨?_, ?_⟩⟩
  · exact List.getLast?_concat _
  · rw [pagesLoop_allFail doc (renderScale dpi, renderScale dpi) ow al
      (pathName p) (pathStem p) (multiOutDir p) (List.range doc.page_count)
      [] (w.mkdir (multiOutDir p))
      (fun i hi => hfail i (List.mem_range.mp hi))]
    rfl
  · exact List.mem_append_right _ (List.mem_singleton.mpr rfl)

/-- C10 witness: every page fails, yet the [OK] line closes the log and no
file is written. -/
theorem multipage_ok_line_unconditional_witness :
    (convert_pdf libFail "/d/a.pdf" 600 false false none w0).1.getLast? =
      some (msgOkMulti (pathName "/d/a.pdf") (multiOutDir "/d/a.pdf") 3)
    ∧ (convert_pdf libFail "/d/a.pdf" 600 false false none w0).2.files
        = w0.files := by
  have h := multipage_ok_line_unconditional libFail docFail "/d/a.pdf" 600
    false false none w0 rfl rfl (by decide)
  exact ⟨h.1, (h.2 (fun i _ => rfl)).1⟩

end PDF2PNG
